import Mathlib

/-!
Shallow embedding of `src/public/fetch_service.py` (paratransit-viewer):
the polygon geometry normalization engine `clean_polygon_geometry` with its
helpers `is_valid_coord` and `close_ring`, and the feature-collection
builder `generate_geojson` / `fetch_city_boundary`.

Python values are modelled as follows: a coordinate is a Python list whose
elements are either numbers (int/float, modelled as ℚ) or arbitrary
non-numeric values (modelled as `Prim.other` with a tag distinguishing
them); a ring is a list of coordinates; Python `None`-or-value results are
`Option`; a Python function that can raise is `Except PyErr`.
-/

namespace ParatransitViewer

/-- An element of a coordinate sequence: a number (Python int/float,
modelled as ℚ), or any non-numeric Python value (tagged). -/
inductive Prim where
  | num (q : ℚ)
  | other (tag : Nat)
deriving DecidableEq, Repr

/-- A coordinate: a Python sequence of values (usually `[lon, lat]`). -/
abbrev Coord := List Prim

/-- A ring: a Python list of coordinates. -/
abbrev Ring := List Coord

/-- Python exceptions that `clean_polygon_geometry` can raise. -/
inductive PyErr where
  | keyError
  | indexError
deriving DecidableEq, Repr

deriving instance DecidableEq for Except

/-- Embeds the inner function `is_valid_coord` (fetch_service.py lines
55-60): `len(coord) >= 2`, the first two elements are numbers, and
`-180 <= coord[0] <= 180 and -90 <= coord[1] <= 90`. The pattern
`num x :: num y :: _` is exactly "length ≥ 2 and coord[0], coord[1] are
numeric". -/
def is_valid_coord (coord : Coord) : Bool :=
  match coord with
  | Prim.num x :: Prim.num y :: _ =>
      decide (-180 ≤ x) && decide (x ≤ 180) && decide (-90 ≤ y) && decide (y ≤ 90)
  | _ => false

/-- Embeds the inner function `close_ring` (lines 62-72):
`if not ring: return ring` (the empty list comes back unchanged);
filter by `is_valid_coord`; `if not ring: return None`;
`if ring[0] != ring[-1]: ring.append(ring[0])`. `none` is Python `None`,
`some []` the (falsy) empty list. -/
def close_ring (ring : Ring) : Option Ring :=
  match ring with
  | [] => some []
  | _ :: _ =>
    match ring.filter is_valid_coord with
    | [] => none
    | c :: cs =>
      if (c :: cs).getLast? = some c then some (c :: cs)
      else some (c :: cs ++ [c])

/-- Python truthiness of a `close_ring` result: `None` and `[]` are falsy. -/
def ringTruthy : Option Ring → Bool
  | some (_ :: _) => true
  | _ => false

/-- One iteration of the hole loop (lines 88-91): `cleaned_hole =
close_ring(hole); if cleaned_hole: cleaned_polygon.append(cleaned_hole)`.
Returns the hole to append, or `none` when it is dropped. -/
def cleanHole (h : Ring) : Option Ring :=
  match close_ring h with
  | some (c :: cs) => some (c :: cs)
  | _ => none

/-- The body of the polygon loop (lines 81-93) for one `polygon`:
`polygon[0]` raises IndexError on an empty ring list; otherwise the outer
ring is cleaned, a falsy result discards the polygon (`ok none`), and a
truthy one yields the cleaned polygon `outer :: surviving holes`
(`if cleaned_polygon:` is always true there since it holds the outer
ring). -/
def cleanOnePolygon : List Ring → Except PyErr (Option (List Ring))
  | [] => .error .indexError
  | outer :: holes =>
    match close_ring outer with
    | some (c :: cs) => .ok (some ((c :: cs) :: holes.filterMap cleanHole))
    | _ => .ok none

/-- The polygon loop (lines 81-93) over the whole `coordinates` list,
accumulating `cleaned_coords`; the first raised exception aborts. -/
def cleanPolys : List (List Ring) → Except PyErr (List (List Ring))
  | [] => .ok []
  | polygon :: rest =>
    match cleanOnePolygon polygon with
    | .error e => .error e
    | .ok hd =>
      match cleanPolys rest with
      | .error e => .error e
      | .ok tl => .ok (match hd with | some p => p :: tl | none => tl)

/-- A cleaned geometry as returned by lines 95-98: the dict
`{"type": "Polygon", "coordinates": <ring list>}` or
`{"type": "MultiPolygon", "coordinates": <polygon list>}`. -/
inductive CleanGeom where
  | polygon (coordinates : List Ring)
  | multiPolygon (coordinates : List (List Ring))
deriving DecidableEq, Repr

/-- The `"type"` tag of a cleaned geometry. -/
def geomType : CleanGeom → String
  | .polygon _ => "Polygon"
  | .multiPolygon _ => "MultiPolygon"

/-- The return statement (lines 95-98):
`"MultiPolygon" if len(cleaned_coords) > 1 else "Polygon"` and
`cleaned_coords if len(cleaned_coords) > 1 else cleaned_coords[0]`;
`cleaned_coords[0]` raises IndexError when the list is empty. -/
def finishGeom (cc : List (List Ring)) : Except PyErr (Option CleanGeom) :=
  if 1 < cc.length then .ok (some (.multiPolygon cc))
  else
    match cc with
    | [] => .error .indexError
    | p :: _ => .ok (some (.polygon p))

/-- The raw geometry argument of `clean_polygon_geometry`, by the cases the
function observes: Python `None`; a falsy (empty) dict; a truthy dict with
no `'coordinates'` key; a dict with `'coordinates'` but no `'type'` key;
and well-shaped `'Polygon'` / `'MultiPolygon'` dicts. -/
inductive RawGeom where
  | pyNone
  | falsyObj
  | missingCoords
  | missingType (coords : List (List Ring))
  | polygon (coordinates : List Ring)
  | multiPolygon (coordinates : List (List Ring))
deriving DecidableEq, Repr

/-- Embeds `clean_polygon_geometry` (lines 45-98). The guard
`if not geojson_geometry or 'coordinates' not in geojson_geometry: return
None` handles the first three cases; `geojson_geometry['type']` raises
KeyError when the key is absent; a `'Polygon'` input is wrapped as
`[coordinates]`; then the polygon loop and the final dict. -/
def clean_polygon_geometry : RawGeom → Except PyErr (Option CleanGeom)
  | .pyNone => .ok none
  | .falsyObj => .ok none
  | .missingCoords => .ok none
  | .missingType _ => .error .keyError
  | .polygon rings =>
    match cleanPolys [rings] with
    | .error e => .error e
    | .ok cc => finishGeom cc
  | .multiPolygon polys =>
    match cleanPolys polys with
    | .error e => .error e
    | .ok cc => finishGeom cc

/-- All rings of a cleaned geometry. -/
def ringsOf : CleanGeom → List Ring
  | .polygon rs => rs
  | .multiPolygon ps => ps.flatten

/-- All rings appearing anywhere in a raw geometry input. -/
def rawRings : RawGeom → List Ring
  | .polygon rs => rs
  | .multiPolygon ps => ps.flatten
  | .missingType ps => ps.flatten
  | _ => []

/-- All coordinates appearing anywhere in a raw geometry input. -/
def rawCoords (raw : RawGeom) : List Coord :=
  (rawRings raw).flatten

/-- A feature of the output collection (lines 173-177):
`{"type": "Feature", "geometry": boundary, "properties": {"name": city}}`. -/
structure Feature where
  name : String
  geometry : CleanGeom
deriving DecidableEq, Repr

/-- Embeds `fetch_city_boundary` (lines 100-131), abstracting the network:
`geocode` yields the raw geojson of a city (or `none` when the location or
its geojson is absent). The body cleans it inside a `try`; any exception is
caught and turned into `None`. -/
def fetch_city_boundary (geocode : String → Option RawGeom) (city : String) :
    Option CleanGeom :=
  match geocode city with
  | none => none
  | some raw =>
    match clean_polygon_geometry raw with
    | .ok g => g
    | .error _ => none

/-- Embeds the feature loop of `generate_geojson` (lines 169-184): cities
are visited in order and a feature is appended exactly when the fetched
boundary is truthy. -/
def generate_geojson (geocode : String → Option RawGeom) (cities : List String) :
    List Feature :=
  cities.foldl
    (fun features city =>
      match fetch_city_boundary geocode city with
      | some b => features ++ [⟨city, b⟩]
      | none => features)
    []

/-- Re-injects a normalized geometry as a raw input, for re-normalization:
the output dict of `clean_polygon_geometry` fed back in has the same
`'type'` tag and the same `'coordinates'` value. -/
def geomAsRaw : CleanGeom → RawGeom
  | .polygon rs => .polygon rs
  | .multiPolygon ps => .multiPolygon ps

/-! ## Basic facts about `close_ring` -/

/-- Case analysis on a successful `close_ring` run: either the input was
the empty list (returned unchanged), or the filtered ring is nonempty and
the result is the filtered ring, closed by appending its first coordinate
when first and last differ. -/
lemma close_ring_cases {r out : Ring} (h : close_ring r = some out) :
    (r = [] ∧ out = []) ∨
    ∃ c cs, r.filter is_valid_coord = c :: cs ∧
      ((out = c :: cs ∧ (c :: cs).getLast? = some c) ∨
       (out = c :: cs ++ [c] ∧ (c :: cs).getLast? ≠ some c)) := by
  cases r with
  | nil =>
    left
    simp only [close_ring, Option.some.injEq] at h
    exact ⟨rfl, h.symm⟩
  | cons a as =>
    right
    simp only [close_ring] at h
    rcases hf : (a :: as).filter is_valid_coord with _ | ⟨c, cs⟩
    · rw [hf] at h; cases h
    · rw [hf] at h
      have h' : (if (c :: cs).getLast? = some c then some (c :: cs)
          else some (c :: cs ++ [c]) : Option Ring) = some out := h
      by_cases hcl : (c :: cs).getLast? = some c
      · rw [if_pos hcl] at h'
        exact ⟨c, cs, rfl, Or.inl ⟨(Option.some.inj h').symm, hcl⟩⟩
      · rw [if_neg hcl] at h'
        exact ⟨c, cs, rfl, Or.inr ⟨(Option.some.inj h').symm, hcl⟩⟩

/-- Every coordinate of a cleaned ring passed validation and occurs
verbatim in the input ring. -/
lemma close_ring_mem {r out : Ring} (h : close_ring r = some out) :
    ∀ c ∈ out, is_valid_coord c = true ∧ c ∈ r := by
  intro c hc
  rcases close_ring_cases h with ⟨_, rfl⟩ | ⟨c0, cs, hf, hout⟩
  · cases hc
  · have hmem : c ∈ c0 :: cs := by
      rcases hout with ⟨rfl, _⟩ | ⟨rfl, _⟩
      · exact hc
      · rcases List.mem_append.mp hc with h1 | h1
        · exact h1
        · simp only [List.mem_singleton] at h1; simp [h1]
    rw [← hf] at hmem
    exact ⟨(List.mem_filter.mp hmem).2, (List.mem_filter.mp hmem).1⟩

/-- A cleaned ring is closed: its first coordinate equals its last. -/
lemma close_ring_closed {r out : Ring} (h : close_ring r = some out) :
    out.head? = out.getLast? := by
  rcases close_ring_cases h with ⟨_, rfl⟩ | ⟨c, cs, _, hout⟩
  · rfl
  · rcases hout with ⟨rfl, hcl⟩ | ⟨rfl, _⟩
    · simp [hcl.symm]
    · show ((c :: cs) ++ [c]).head? = ((c :: cs) ++ [c]).getLast?
      rw [List.getLast?_append_cons]
      rfl

/-- If the input ring is nonempty, a cleaned ring is nonempty. -/
lemma close_ring_ne_nil {r out : Ring} (h : close_ring r = some out)
    (hr : r ≠ []) : out ≠ [] := by
  rcases close_ring_cases h with ⟨h1, _⟩ | ⟨c, cs, _, hout⟩
  · exact absurd h1 hr
  · rcases hout with ⟨rfl, _⟩ | ⟨rfl, _⟩ <;> simp

/-- A nonempty ring of valid coordinates whose first and last coordinates
agree is a fixed point of `close_ring`. -/
lemma close_ring_fixed {out : Ring} (hne : out ≠ [])
    (hall : ∀ c ∈ out, is_valid_coord c = true)
    (hcl : out.head? = out.getLast?) :
    close_ring out = some out := by
  cases out with
  | nil => exact absurd rfl hne
  | cons a as =>
    have hf : (a :: as).filter is_valid_coord = a :: as :=
      List.filter_eq_self.mpr hall
    have hlast : (a :: as).getLast? = some a := by
      simpa using hcl.symm
    simp [close_ring, hf, hlast]

/-- A cleaned ring is itself cleaned to itself (per-ring idempotence). -/
lemma close_ring_self {r out : Ring} (h : close_ring r = some out)
    (hne : out ≠ []) : close_ring out = some out :=
  close_ring_fixed hne (fun c hc => (close_ring_mem h c hc).1)
    (close_ring_closed h)

/-! ## Facts about the polygon loop -/

/-- A kept hole is exactly a truthy `close_ring` result. -/
lemma cleanHole_some {h0 out : Ring} (h : cleanHole h0 = some out) :
    close_ring h0 = some out ∧ out ≠ [] := by
  unfold cleanHole at h
  rcases hc : close_ring h0 with _ | r
  · rw [hc] at h; cases h
  · rw [hc] at h
    cases r with
    | nil => cases h
    | cons c cs => exact ⟨by rw [Option.some.inj h], by rw [← Option.some.inj h]; simp⟩

/-- A nonempty fixed point of `close_ring` is kept unchanged by the hole
step. -/
lemma cleanHole_self {x : Ring} (hx : close_ring x = some x) (hne : x ≠ []) :
    cleanHole x = some x := by
  cases x with
  | nil => exact absurd rfl hne
  | cons a t => simp [cleanHole, hx]

/-- Inversion of a polygon the loop body keeps: the input had an outer
ring whose cleaning was truthy, and the cleaned polygon is that outer ring
followed by the surviving holes. -/
lemma cleanOnePolygon_some {poly : List Ring} {p : List Ring}
    (h : cleanOnePolygon poly = .ok (some p)) :
    ∃ outer holes c cs, poly = outer :: holes ∧
      close_ring outer = some (c :: cs) ∧
      p = (c :: cs) :: holes.filterMap cleanHole := by
  cases poly with
  | nil => cases h
  | cons outer holes =>
    simp only [cleanOnePolygon] at h
    rcases hc : close_ring outer with _ | r
    · rw [hc] at h; cases h
    · rw [hc] at h
      cases r with
      | nil => cases h
      | cons c cs =>
        exact ⟨outer, holes, c, cs, rfl,
          hc, ((Option.some.inj (Except.ok.inj h))).symm⟩

/-- Every ring of a kept cleaned polygon is the truthy `close_ring` image
of some ring of the input polygon. -/
lemma cleanOnePolygon_rings {poly p : List Ring}
    (h : cleanOnePolygon poly = .ok (some p)) :
    ∀ ring ∈ p, ∃ r ∈ poly, close_ring r = some ring ∧ ring ≠ [] := by
  obtain ⟨outer, holes, c, cs, rfl, hc, rfl⟩ := cleanOnePolygon_some h
  intro ring hring
  rcases List.mem_cons.mp hring with rfl | hmem
  · exact ⟨outer, by simp, hc, by simp⟩
  · obtain ⟨h0, hh0, hch⟩ := List.mem_filterMap.mp hmem
    obtain ⟨hcr, hne⟩ := cleanHole_some hch
    exact ⟨h0, by simp [hh0], hcr, hne⟩

/-- A list of nonempty fixed points of the hole step passes `filterMap
cleanHole` unchanged. -/
lemma filterMap_cleanHole_id : ∀ l : List Ring,
    (∀ x ∈ l, cleanHole x = some x) → l.filterMap cleanHole = l := by
  intro l
  induction l with
  | nil => intro _; rfl
  | cons a t ih =>
    intro h
    simp only [List.filterMap_cons, h a (by simp),
      ih (fun x hx => h x (by simp [hx]))]

/-- A kept cleaned polygon is a fixed point of the loop body. -/
lemma cleanOnePolygon_self {poly p : List Ring}
    (h : cleanOnePolygon poly = .ok (some p)) :
    cleanOnePolygon p = .ok (some p) := by
  obtain ⟨outer, holes, c, cs, rfl, hc, rfl⟩ := cleanOnePolygon_some h
  have houter : close_ring (c :: cs) = some (c :: cs) :=
    close_ring_self hc (by simp)
  have hholes : (holes.filterMap cleanHole).filterMap cleanHole
      = holes.filterMap cleanHole := by
    refine filterMap_cleanHole_id _ (fun x hx => ?_)
    obtain ⟨h0, _, hch⟩ := List.mem_filterMap.mp hx
    obtain ⟨hcr, hne⟩ := cleanHole_some hch
    exact cleanHole_self (close_ring_self hcr hne) hne
  simp [cleanOnePolygon, houter, hholes]

/-- Every polygon of `cleaned_coords` is the kept image of some polygon of
the input list. -/
lemma cleanPolys_mem : ∀ {polys cc : List (List Ring)},
    cleanPolys polys = .ok cc →
    ∀ p ∈ cc, ∃ poly ∈ polys, cleanOnePolygon poly = .ok (some p) := by
  intro polys
  induction polys with
  | nil =>
    intro cc h p hp
    rw [(Except.ok.inj h.symm : cc = [])] at hp
    cases hp
  | cons polygon rest ih =>
    intro cc h p hp
    simp only [cleanPolys] at h
    rcases h1 : cleanOnePolygon polygon with e | hd
    · rw [h1] at h; cases h
    · rw [h1] at h
      rcases h2 : cleanPolys rest with e | tl
      · rw [h2] at h; cases h
      · rw [h2] at h
        cases hd with
        | none =>
          have : cc = tl := (Except.ok.inj h).symm
          subst this
          obtain ⟨poly, hpoly, hop⟩ := ih h2 p hp
          exact ⟨poly, by simp [hpoly], hop⟩
        | some q =>
          have : cc = q :: tl := (Except.ok.inj h).symm
          subst this
          rcases List.mem_cons.mp hp with rfl | hmem
          · exact ⟨polygon, by simp, by rw [h1]⟩
          · obtain ⟨poly, hpoly, hop⟩ := ih h2 p hmem
            exact ⟨poly, by simp [hpoly], hop⟩

/-- A list of polygons that are each kept unchanged passes `cleanPolys`
unchanged. -/
lemma cleanPolys_self {cc : List (List Ring)}
    (h : ∀ p ∈ cc, cleanOnePolygon p = .ok (some p)) :
    cleanPolys cc = .ok cc := by
  induction cc with
  | nil => rfl
  | cons p rest ih =>
    have h1 := h p (by simp)
    have h2 := ih (fun q hq => h q (by simp [hq]))
    simp [cleanPolys, h1, h2]

/-- Inversion of the final type-selection step (lines 95-98): a returned
geometry is `MultiPolygon cleaned_coords` when more than one polygon
survived, and `Polygon` of the single survivor otherwise. -/
lemma finishGeom_some {cc : List (List Ring)} {g : CleanGeom}
    (h : finishGeom cc = .ok (some g)) :
    (1 < cc.length ∧ g = .multiPolygon cc) ∨
    (∃ p, cc = [p] ∧ g = .polygon p) := by
  unfold finishGeom at h
  by_cases hl : 1 < cc.length
  · rw [if_pos hl] at h
    exact Or.inl ⟨hl, (Option.some.inj (Except.ok.inj h)).symm⟩
  · rw [if_neg hl] at h
    cases cc with
    | nil => cases h
    | cons p t =>
      cases t with
      | nil => exact Or.inr ⟨p, rfl, (Option.some.inj (Except.ok.inj h)).symm⟩
      | cons q t2 => exact absurd (by simp [List.length_cons]) hl

/-! ## Facts about a successful `clean_polygon_geometry` run -/

/-- The polygon lists the loop iterates over, per raw input: a
`'Polygon'` input is wrapped as a one-element list, a `'MultiPolygon'`
input is iterated directly; the other inputs never reach the loop. -/
def rawPolys : RawGeom → Option (List (List Ring))
  | .polygon rings => some [rings]
  | .multiPolygon polys => some polys
  | _ => none

/-- A successful non-`None` run decomposes into the polygon loop on
`rawPolys` followed by the type-selection step. -/
lemma clean_some {raw : RawGeom} {g : CleanGeom}
    (h : clean_polygon_geometry raw = .ok (some g)) :
    ∃ polys cc, rawPolys raw = some polys ∧
      cleanPolys polys = .ok cc ∧ finishGeom cc = .ok (some g) := by
  cases raw with
  | pyNone => cases h
  | falsyObj => cases h
  | missingCoords => cases h
  | missingType _ => cases h
  | polygon rings =>
    simp only [clean_polygon_geometry] at h
    rcases hcp : cleanPolys [rings] with e | cc
    · rw [hcp] at h; cases h
    · rw [hcp] at h
      exact ⟨[rings], cc, rfl, hcp, h⟩
  | multiPolygon polys =>
    simp only [clean_polygon_geometry] at h
    rcases hcp : cleanPolys polys with e | cc
    · rw [hcp] at h; cases h
    · rw [hcp] at h
      exact ⟨polys, cc, rfl, hcp, h⟩

/-- The rings `rawPolys` exposes are rings of the raw input. -/
lemma rawPolys_rings {raw : RawGeom} {polys : List (List Ring)}
    (h : rawPolys raw = some polys) :
    ∀ poly ∈ polys, ∀ r ∈ poly, r ∈ rawRings raw := by
  cases raw with
  | polygon rings =>
    intro poly hpoly r hr
    rcases List.mem_singleton.mp (Option.some.inj h ▸ hpoly) with rfl
    exact hr
  | multiPolygon ps =>
    intro poly hpoly r hr
    rw [← Option.some.inj h] at hpoly
    exact List.mem_flatten.mpr ⟨poly, hpoly, hr⟩
  | pyNone => cases h
  | falsyObj => cases h
  | missingCoords => cases h
  | missingType _ => cases h

/-- Every ring of an output geometry is the truthy `close_ring` image of
some ring of the raw input. -/
lemma output_ring_src {raw : RawGeom} {g : CleanGeom}
    (h : clean_polygon_geometry raw = .ok (some g)) :
    ∀ ring ∈ ringsOf g, ∃ r ∈ rawRings raw,
      close_ring r = some ring ∧ ring ≠ [] := by
  obtain ⟨polys, cc, hrp, hcp, hf⟩ := clean_some h
  intro ring hring
  have hpcc : ∃ p ∈ cc, ring ∈ p := by
    rcases finishGeom_some hf with ⟨_, rfl⟩ | ⟨p, rfl, rfl⟩
    · exact List.mem_flatten.mp hring
    · exact ⟨p, by simp, hring⟩
  obtain ⟨p, hp, hringp⟩ := hpcc
  obtain ⟨poly, hpoly, hop⟩ := cleanPolys_mem hcp p hp
  obtain ⟨r, hr, hcr, hne⟩ := cleanOnePolygon_rings hop ring hringp
  exact ⟨r, rawPolys_rings hrp poly hpoly r hr, hcr, hne⟩

/-- Structure of an output geometry: a `Polygon` holds the unique
surviving cleaned polygon, a `MultiPolygon` holds more than one, and each
surviving polygon is a fixed point of the loop body. -/
lemma clean_good {raw : RawGeom} {g : CleanGeom}
    (h : clean_polygon_geometry raw = .ok (some g)) :
    (∃ p, g = .polygon p ∧ cleanOnePolygon p = .ok (some p)) ∨
    (∃ cc, g = .multiPolygon cc ∧ 1 < cc.length ∧
      ∀ p ∈ cc, cleanOnePolygon p = .ok (some p)) := by
  obtain ⟨polys, cc, _, hcp, hf⟩ := clean_some h
  have hgood : ∀ p ∈ cc, cleanOnePolygon p = .ok (some p) := by
    intro p hp
    obtain ⟨poly, _, hop⟩ := cleanPolys_mem hcp p hp
    exact cleanOnePolygon_self hop
  rcases finishGeom_some hf with ⟨hl, rfl⟩ | ⟨p, rfl, rfl⟩
  · exact Or.inr ⟨cc, rfl, hl, hgood⟩
  · exact Or.inl ⟨p, rfl, hgood p (by simp)⟩

/-! ## Coordinate validation, characterized -/

/-- Arithmetic content of `is_valid_coord`: the coordinate starts with two
numbers within the longitude/latitude bounds. -/
lemma is_valid_coord_iff {c : Coord} :
    is_valid_coord c = true ↔
      ∃ x y rest, c = Prim.num x :: Prim.num y :: rest ∧
        -180 ≤ x ∧ x ≤ 180 ∧ -90 ≤ y ∧ y ≤ 90 := by
  match c with
  | [] => simp [is_valid_coord]
  | [Prim.num x] => simp [is_valid_coord]
  | [Prim.other t] => simp [is_valid_coord]
  | Prim.other t :: _ :: _ => simp [is_valid_coord]
  | Prim.num x :: Prim.other t :: _ => simp [is_valid_coord]
  | Prim.num x :: Prim.num y :: rest => simp [is_valid_coord, and_assoc]

/-- `is_valid_coord` inspects only the first two elements. -/
lemma is_valid_take_two {c d : Coord} (h : c.take 2 = d.take 2) :
    is_valid_coord c = is_valid_coord d := by
  match c, d with
  | [], [] => rfl
  | [], _ :: _ => simp at h
  | _ :: _, [] => simp at h
  | [a], [b] => simp at h; rw [h]
  | [a], _ :: _ :: _ => simp at h
  | _ :: _ :: _, [b] => simp at h
  | a :: a2 :: as, b :: b2 :: bs =>
    simp at h
    obtain ⟨rfl, rfl⟩ := h
    cases a with
    | other t => rfl
    | num x =>
      cases a2 with
      | other t => rfl
      | num y => rfl

/-- The feature loop of `generate_geojson`, as a fold with an explicit
accumulator: the result is the accumulator followed by the kept features
in city order. -/
lemma generate_geojson_foldl (geocode : String → Option RawGeom) :
    ∀ (cities : List String) (acc : List Feature),
      cities.foldl
        (fun features city =>
          match fetch_city_boundary geocode city with
          | some b => features ++ [⟨city, b⟩]
          | none => features) acc
      = acc ++ cities.filterMap
          (fun city => (fetch_city_boundary geocode city).map
            (fun b => ⟨city, b⟩)) := by
  intro cities
  induction cities with
  | nil => intro acc; simp
  | cons c rest ih =>
    intro acc
    rcases hb : fetch_city_boundary geocode c with _ | b
    · simp [List.foldl_cons, List.filterMap_cons, hb, ih]
    · simp [List.foldl_cons, List.filterMap_cons, hb, ih]

/-! ## Claims -/

/-- **C1** (code bug): the claim says the result is `None` iff zero
polygons survive cleaning. On a `'Polygon'` input whose only ring holds a
single out-of-range coordinate, zero polygons survive (`cleaned_coords`
is empty), and the code raises IndexError at `cleaned_coords[0]` instead
of returning `None`. -/
theorem C1_type_selection_code_bug :
    cleanPolys [[[[Prim.num 999, Prim.num 0]]]] = .ok [] ∧
    clean_polygon_geometry (.polygon [[[Prim.num 999, Prim.num 0]]]) =
      .error .indexError := by decide

/-- **C2** (code bug): the claim says normalization never raises. It
raises KeyError when the `'type'` key is missing, IndexError at
`polygon[0]` on an empty ring list, and IndexError at `cleaned_coords[0]`
on an empty coordinates list. -/
theorem C2_never_raises_code_bug :
    clean_polygon_geometry (.missingType [[[[Prim.num 0, Prim.num 0]]]]) =
      .error .keyError ∧
    clean_polygon_geometry (.multiPolygon [[]]) = .error .indexError ∧
    clean_polygon_geometry (.multiPolygon []) = .error .indexError := by
  decide

/-- **C3**: every ring of an output geometry with at least one coordinate
has its first coordinate equal to its last (the ring is closed). -/
theorem C3_rings_closed (raw : RawGeom) (g : CleanGeom)
    (h : clean_polygon_geometry raw = .ok (some g)) :
    ∀ ring ∈ ringsOf g, ring ≠ [] → ring.head? = ring.getLast? := by
  intro ring hring _
  obtain ⟨r, _, hcr, _⟩ := output_ring_src h ring hring
  exact close_ring_closed hcr

/-- Witness for C3 at spec scenario 2 (an unclosed triangle). -/
theorem C3_rings_closed_wit :
    ([[Prim.num 10, Prim.num 10], [Prim.num 20, Prim.num 10],
      [Prim.num 20, Prim.num 20], [Prim.num 10, Prim.num 10]] : Ring).head? =
    ([[Prim.num 10, Prim.num 10], [Prim.num 20, Prim.num 10],
      [Prim.num 20, Prim.num 20], [Prim.num 10, Prim.num 10]] : Ring).getLast? :=
  C3_rings_closed
    (.polygon [[[Prim.num 10, Prim.num 10], [Prim.num 20, Prim.num 10],
      [Prim.num 20, Prim.num 20]]])
    (.polygon [[[Prim.num 10, Prim.num 10], [Prim.num 20, Prim.num 10],
      [Prim.num 20, Prim.num 20], [Prim.num 10, Prim.num 10]]])
    (by decide) _ (by decide) (by decide)

/-- **C4**: every coordinate of an output geometry starts with two numbers
satisfying -180 ≤ lon ≤ 180 and -90 ≤ lat ≤ 90, and occurs verbatim among
the input's coordinates (out-of-range coordinates are dropped, never
clamped into range). -/
theorem C4_coords_in_range (raw : RawGeom) (g : CleanGeom)
    (h : clean_polygon_geometry raw = .ok (some g)) :
    ∀ ring ∈ ringsOf g, ∀ c ∈ ring,
      (∃ x y rest, c = Prim.num x :: Prim.num y :: rest ∧
        -180 ≤ x ∧ x ≤ 180 ∧ -90 ≤ y ∧ y ≤ 90) ∧
      c ∈ rawCoords raw := by
  intro ring hring c hc
  obtain ⟨r, hr, hcr, _⟩ := output_ring_src h ring hring
  obtain ⟨hvalid, hmem⟩ := close_ring_mem hcr c hc
  exact ⟨is_valid_coord_iff.mp hvalid, List.mem_flatten.mpr ⟨r, hr, hmem⟩⟩

/-- Witness for C4 at a one-coordinate polygon. -/
theorem C4_coords_in_range_wit :
    (∃ x y rest, ([Prim.num 1, Prim.num 2] : Coord) =
        Prim.num x :: Prim.num y :: rest ∧
      -180 ≤ x ∧ x ≤ 180 ∧ -90 ≤ y ∧ y ≤ 90) ∧
    ([Prim.num 1, Prim.num 2] : Coord) ∈
      rawCoords (.polygon [[[Prim.num 1, Prim.num 2]]]) :=
  C4_coords_in_range (.polygon [[[Prim.num 1, Prim.num 2]]])
    (.polygon [[[Prim.num 1, Prim.num 2]]]) (by decide)
    [[Prim.num 1, Prim.num 2]] (by decide)
    [Prim.num 1, Prim.num 2] (by decide)

/-- **C5** (counterexample): for a ring whose filtered form is the single
coordinate (3,4), the code emits the one-element ring unchanged — not the
claimed two-element ring with the coordinate duplicated (Python's
`ring[0] != ring[-1]` is false for a one-element list, so nothing is
appended). -/
theorem C5_single_coord_counterexample :
    close_ring [[Prim.num 999, Prim.num 0], [Prim.num 3, Prim.num 4]] =
      some [[Prim.num 3, Prim.num 4]] ∧
    close_ring [[Prim.num 999, Prim.num 0], [Prim.num 3, Prim.num 4]] ≠
      some [[Prim.num 3, Prim.num 4], [Prim.num 3, Prim.num 4]] := by decide

/-- **C5** (amended): a ring with exactly one surviving coordinate is
emitted as that one-element degenerate ring, unchanged (its first and last
coordinate coincide, so the closing step appends nothing); it is accepted
rather than rejected. -/
theorem C5_single_coord_amended (ring : Ring) (c : Coord)
    (h : ring.filter is_valid_coord = [c]) :
    close_ring ring = some [c] := by
  cases ring with
  | nil => cases h
  | cons a as =>
    simp only [close_ring]
    rw [h]
    simp

/-- Witness for the amended C5. -/
theorem C5_single_coord_amended_wit :
    close_ring [[Prim.num 5, Prim.num 6]] = some [[Prim.num 5, Prim.num 6]] :=
  C5_single_coord_amended [[Prim.num 5, Prim.num 6]]
    [Prim.num 5, Prim.num 6] (by decide)

/-- **C6**: a polygon whose outer ring has zero valid coordinates after
cleaning is discarded entirely (holes included); otherwise the polygon is
kept as its cleaned outer ring followed by the surviving holes, and a hole
with zero valid coordinates after cleaning is dropped without invalidating
the polygon. -/
theorem C6_outer_and_holes (outer : Ring) (holes : List Ring) :
    (outer.filter is_valid_coord = [] →
      cleanOnePolygon (outer :: holes) = .ok none) ∧
    (outer.filter is_valid_coord ≠ [] →
      ∃ o, close_ring outer = some o ∧ o ≠ [] ∧
        cleanOnePolygon (outer :: holes) =
          .ok (some (o :: holes.filterMap cleanHole))) ∧
    (∀ h0 : Ring, h0.filter is_valid_coord = [] → cleanHole h0 = none) := by
  refine ⟨?_, ?_, ?_⟩
  · intro hf
    cases outer with
    | nil => rfl
    | cons a as =>
      have hcr0 : close_ring (a :: as) =
          match (a :: as).filter is_valid_coord with
          | [] => (none : Option Ring)
          | c0 :: cs0 => if (c0 :: cs0).getLast? = some c0 then some (c0 :: cs0)
                         else some (c0 :: cs0 ++ [c0]) := rfl
      rw [hf] at hcr0
      simp [cleanOnePolygon, hcr0]
  · intro hf
    rcases hfe : outer.filter is_valid_coord with _ | ⟨c, cs⟩
    · exact absurd hfe hf
    · cases outer with
      | nil => cases hfe
      | cons a as =>
        have hcr0 : close_ring (a :: as) =
            match (a :: as).filter is_valid_coord with
            | [] => (none : Option Ring)
            | c0 :: cs0 => if (c0 :: cs0).getLast? = some c0 then some (c0 :: cs0)
                           else some (c0 :: cs0 ++ [c0]) := rfl
        rw [hfe] at hcr0
        have hcr : close_ring (a :: as) =
            (if (c :: cs).getLast? = some c then some (c :: cs)
             else some (c :: cs ++ [c])) := hcr0
        by_cases hcl : (c :: cs).getLast? = some c
        · rw [if_pos hcl] at hcr
          exact ⟨c :: cs, hcr, by simp, by simp [cleanOnePolygon, hcr]⟩
        · rw [if_neg hcl] at hcr
          exact ⟨c :: cs ++ [c], hcr, by simp, by simp [cleanOnePolygon, hcr]⟩
  · intro h0 hf
    cases h0 with
    | nil => rfl
    | cons a as =>
      have hcr0 : close_ring (a :: as) =
          match (a :: as).filter is_valid_coord with
          | [] => (none : Option Ring)
          | c0 :: cs0 => if (c0 :: cs0).getLast? = some c0 then some (c0 :: cs0)
                         else some (c0 :: cs0 ++ [c0]) := rfl
      rw [hf] at hcr0
      simp [cleanHole, hcr0]

/-- Witness for C6 at spec scenario 5 (fully invalid outer ring). -/
theorem C6_outer_and_holes_wit :
    cleanOnePolygon [[[Prim.num 300, Prim.num 300],
      [Prim.num 400, Prim.num 400]]] = .ok none :=
  (C6_outer_and_holes
    [[Prim.num 300, Prim.num 300], [Prim.num 400, Prim.num 400]] []).1
    (by decide)

/-- **C7**: order is preserved everywhere. Within a ring, the survivors
are the order-preserving filter of the input (a sublist), with at most the
first survivor re-appended to close the ring; within a cleaned polygon the
surviving holes are the order-preserving filter of the input holes, each
cleaned; within a collection, the features are the order-preserving
filter-map of the input cities — no reordering, no deduplication. -/
theorem C7_order_preserved :
    (∀ ring out : Ring, close_ring ring = some out →
      List.Sublist (ring.filter is_valid_coord) ring ∧
      (out = ring.filter is_valid_coord ∨
        out = ring.filter is_valid_coord ++
          (ring.filter is_valid_coord).take 1)) ∧
    (∀ holes : List Ring, holes.filterMap cleanHole =
      (holes.filter (fun h0 => ringTruthy (close_ring h0))).map
        (fun h0 => (close_ring h0).getD [])) ∧
    (∀ (geocode : String → Option RawGeom) (cities : List String),
      generate_geojson geocode cities = cities.filterMap
        (fun city => (fetch_city_boundary geocode city).map
          (fun b => ⟨city, b⟩))) := by
  refine ⟨?_, ?_, ?_⟩
  · intro ring out h
    refine ⟨List.filter_sublist ring, ?_⟩
    rcases close_ring_cases h with ⟨rfl, rfl⟩ | ⟨c, cs, hf, hout⟩
    · exact Or.inl rfl
    · rw [hf]
      rcases hout with ⟨rfl, _⟩ | ⟨rfl, _⟩
      · exact Or.inl rfl
      · exact Or.inr rfl
  · intro holes
    induction holes with
    | nil => rfl
    | cons a t ih =>
      rcases hc : close_ring a with _ | r
      · simp [List.filterMap_cons, List.filter_cons, cleanHole, hc,
          ringTruthy, ih]
      · cases r with
        | nil =>
          simp [List.filterMap_cons, List.filter_cons, cleanHole, hc,
            ringTruthy, ih]
        | cons c cs =>
          simp [List.filterMap_cons, List.filter_cons, cleanHole, hc,
            ringTruthy, ih]
  · intro geocode cities
    have := generate_geojson_foldl geocode cities []
    simpa [generate_geojson] using this

/-- Witness for C7 at a ring with one invalid and one valid coordinate. -/
theorem C7_order_preserved_wit :
    List.Sublist
      (([[Prim.num 999, Prim.num 0], [Prim.num 1, Prim.num 2]] : Ring).filter
        is_valid_coord)
      [[Prim.num 999, Prim.num 0], [Prim.num 1, Prim.num 2]] ∧
    (([[Prim.num 1, Prim.num 2]] : Ring) =
        ([[Prim.num 999, Prim.num 0], [Prim.num 1, Prim.num 2]] : Ring).filter
          is_valid_coord ∨
      ([[Prim.num 1, Prim.num 2]] : Ring) =
        ([[Prim.num 999, Prim.num 0], [Prim.num 1, Prim.num 2]] : Ring).filter
            is_valid_coord ++
          (([[Prim.num 999, Prim.num 0],
            [Prim.num 1, Prim.num 2]] : Ring).filter is_valid_coord).take 1) :=
  C7_order_preserved.1 [[Prim.num 999, Prim.num 0], [Prim.num 1, Prim.num 2]]
    [[Prim.num 1, Prim.num 2]] (by decide)

/-- **C8**: normalization is idempotent — feeding an output geometry back
in reproduces it exactly (same type tag, polygons, rings, coordinates). -/
theorem C8_idempotent (raw : RawGeom) (g : CleanGeom)
    (h : clean_polygon_geometry raw = .ok (some g)) :
    clean_polygon_geometry (geomAsRaw g) = .ok (some g) := by
  rcases clean_good h with ⟨p, rfl, hp⟩ | ⟨cc, rfl, hl, hcc⟩
  · have h1 : cleanPolys [p] = .ok [p] := by
      simp [cleanPolys, hp]
    simp [geomAsRaw, clean_polygon_geometry, h1, finishGeom]
  · have h1 : cleanPolys cc = .ok cc := cleanPolys_self hcc
    simp [geomAsRaw, clean_polygon_geometry, h1, finishGeom, hl]

/-- Witness for C8 at spec scenario 2 (an unclosed triangle and its
normalized output). -/
theorem C8_idempotent_wit :
    clean_polygon_geometry (geomAsRaw (.polygon
      [[[Prim.num 10, Prim.num 10], [Prim.num 20, Prim.num 10],
        [Prim.num 20, Prim.num 20], [Prim.num 10, Prim.num 10]]])) =
    .ok (some (.polygon
      [[[Prim.num 10, Prim.num 10], [Prim.num 20, Prim.num 10],
        [Prim.num 20, Prim.num 20], [Prim.num 10, Prim.num 10]]])) :=
  C8_idempotent
    (.polygon [[[Prim.num 10, Prim.num 10], [Prim.num 20, Prim.num 10],
      [Prim.num 20, Prim.num 20]]]) _ (by decide)

/-- **C9**: a wholly absent input (Python `None`) and a falsy/empty
geometry object both normalize to `None` without raising. -/
theorem C9_none_and_falsy :
    clean_polygon_geometry .pyNone = .ok none ∧
    clean_polygon_geometry .falsyObj = .ok none :=
  ⟨rfl, rfl⟩

/-- **C10**: coordinate validation inspects only the first two elements of
a coordinate, and every surviving coordinate reaches the output verbatim
(extra elements beyond the first two included, unchanged and
unvalidated). -/
theorem C10_first_two_verbatim :
    (∀ c d : Coord, c.take 2 = d.take 2 →
      is_valid_coord c = is_valid_coord d) ∧
    (∀ (raw : RawGeom) (g : CleanGeom),
      clean_polygon_geometry raw = .ok (some g) →
      ∀ ring ∈ ringsOf g, ∀ c ∈ ring, c ∈ rawCoords raw) := by
  constructor
  · exact fun c d h => is_valid_take_two h
  · intro raw g h ring hring c hc
    obtain ⟨r, hr, hcr, _⟩ := output_ring_src h ring hring
    exact List.mem_flatten.mpr ⟨r, hr, (close_ring_mem hcr c hc).2⟩

/-- Witness for C10: a three-element coordinate validates like its
two-element prefix, and survives into the output verbatim. -/
theorem C10_first_two_verbatim_wit :
    is_valid_coord [Prim.num 1, Prim.num 2, Prim.other 7] =
      is_valid_coord [Prim.num 1, Prim.num 2] ∧
    ([Prim.num 1, Prim.num 2, Prim.other 7] : Coord) ∈
      rawCoords (.polygon [[[Prim.num 1, Prim.num 2, Prim.other 7]]]) :=
  ⟨C10_first_two_verbatim.1 [Prim.num 1, Prim.num 2, Prim.other 7]
      [Prim.num 1, Prim.num 2] (by decide),
    C10_first_two_verbatim.2 (.polygon [[[Prim.num 1, Prim.num 2, Prim.other 7]]])
      (.polygon [[[Prim.num 1, Prim.num 2, Prim.other 7]]]) (by decide)
      [[Prim.num 1, Prim.num 2, Prim.other 7]] (by decide)
      [Prim.num 1, Prim.num 2, Prim.other 7] (by decide)⟩

end ParatransitViewer
